import Mathlib

/-!
Verification development for the job-application tracker
(`suivi_candidatures.py`): a shallow embedding of its data model,
filter engine, reminder counting, CSV import/export and reminder
wiring, together with theorems settling the specification claims.

Conventions of the embedding:
* SQLite `TEXT` values are `Option String` (`none` models SQL `NULL`).
* SQLite's `BINARY` collation and Python's `str` comparison are both
  modelled by `lexLt` on the code-point list of the string (UTF-8
  `memcmp` order and code-point order agree).
* Python truthiness on optional strings (`x or None`, `if x:`) is
  modelled by `truthyS`.
* Calendar dates (`datetime` + `timedelta(days=n)`) are modelled by
  `CalDate` with successor-day iteration, and `strftime("%Y-%m-%d")`
  by `toISO` (zero-padded, valid for years up to 9999).
-/

/-- Table of uppercase-to-lowercase character mappings modelling Python's
`str.lower()` on the ASCII and Latin-1 letters used by the application. -/
def lowerTable : List (Char × Char) :=
  [('A', 'a'), ('B', 'b'), ('C', 'c'), ('D', 'd'), ('E', 'e'), ('F', 'f'),
   ('G', 'g'), ('H', 'h'), ('I', 'i'), ('J', 'j'), ('K', 'k'), ('L', 'l'),
   ('M', 'm'), ('N', 'n'), ('O', 'o'), ('P', 'p'), ('Q', 'q'), ('R', 'r'),
   ('S', 's'), ('T', 't'), ('U', 'u'), ('V', 'v'), ('W', 'w'), ('X', 'x'),
   ('Y', 'y'), ('Z', 'z'),
   ('À', 'à'), ('Á', 'á'), ('Â', 'â'), ('Ã', 'ã'), ('Ä', 'ä'), ('Å', 'å'),
   ('Æ', 'æ'), ('Ç', 'ç'), ('È', 'è'), ('É', 'é'), ('Ê', 'ê'), ('Ë', 'ë'),
   ('Ì', 'ì'), ('Í', 'í'), ('Î', 'î'), ('Ï', 'ï'), ('Ð', 'ð'), ('Ñ', 'ñ'),
   ('Ò', 'ò'), ('Ó', 'ó'), ('Ô', 'ô'), ('Õ', 'õ'), ('Ö', 'ö'), ('Ø', 'ø'),
   ('Ù', 'ù'), ('Ú', 'ú'), ('Û', 'û'), ('Ü', 'ü'), ('Ý', 'ý'), ('Þ', 'þ')]

/-- Lowercase one character, per `lowerTable`. -/
def pyLower (c : Char) : Char :=
  match lowerTable.find? (fun p => p.1 == c) with
  | some p => p.2
  | none => c

/-- Lowercase a string (model of Python `str.lower()`). -/
def pyLowerS (s : String) : String := ⟨s.data.map pyLower⟩

/-- Characters stripped by Python's `str.strip()`. -/
def isPySpace (c : Char) : Bool :=
  c == ' ' || c == '\t' || c == '\n' || c == '\r' || c == '\x0b' || c == '\x0c'

/-- Model of Python's `str.strip()`. -/
def pyStrip (s : String) : String :=
  ⟨((s.data.dropWhile isPySpace).reverse.dropWhile isPySpace).reverse⟩

/-- Python truthiness on an optional string: `None` and `""` are falsy.
Models both `row.get(k) or None` and `if x:` guards. -/
def truthyS : Option String → Option String
  | none => none
  | some s => if s == "" then none else some s

/-- Strict lexicographic order on code-point lists. This models both
SQLite's default `BINARY` text collation (a `memcmp` of the UTF-8 bytes,
which agrees with code-point order) and Python's `<`/`>` on `str`. -/
def lexLt : List Char → List Char → Bool
  | [], [] => false
  | [], _ :: _ => true
  | _ :: _, [] => false
  | a :: s, b :: t =>
    if a.toNat < b.toNat then true
    else if b.toNat < a.toNat then false
    else lexLt s t

/-- Non-strict companion of `lexLt`. -/
def lexLe (a b : List Char) : Bool := !(lexLt b a)

/-- Python's `a > b` on strings. -/
def pyGtStr (a b : String) : Bool := lexLt b.data a.data

/-- Decimal digit character for a digit value (values above 9 clamp to 9). -/
def digitChar : Nat → Char
  | 0 => '0' | 1 => '1' | 2 => '2' | 3 => '3' | 4 => '4'
  | 5 => '5' | 6 => '6' | 7 => '7' | 8 => '8' | _ => '9'

/-- Two-digit zero-padded rendering of `n % 100`. -/
def pad2 (n : Nat) : List Char := [digitChar (n / 10 % 10), digitChar (n % 10)]

/-- Calendar date, proleptic Gregorian, as used by Python's `datetime.date`. -/
structure CalDate where
  year : Nat
  month : Nat
  day : Nat
deriving DecidableEq

/-- Gregorian leap-year rule. -/
def isLeap (y : Nat) : Bool := y % 4 == 0 && (y % 100 != 0 || y % 400 == 0)

/-- Number of days in a month. -/
def daysInMonth (y m : Nat) : Nat :=
  if m == 2 then (if isLeap y then 29 else 28)
  else if m == 4 || m == 6 || m == 9 || m == 11 then 30
  else 31

/-- Well-formedness of a calendar date. -/
def validDateB (d : CalDate) : Bool :=
  1 ≤ d.month && d.month ≤ 12 && 1 ≤ d.day && d.day ≤ daysInMonth d.year d.month

/-- Successor day in the calendar. -/
def nextDay (d : CalDate) : CalDate :=
  if d.day < daysInMonth d.year d.month then ⟨d.year, d.month, d.day + 1⟩
  else if d.month < 12 then ⟨d.year, d.month + 1, 1⟩
  else ⟨d.year + 1, 1, 1⟩

/-- Model of `datetime.today() + timedelta(days=n)`: iterated successor day. -/
def addDays (d : CalDate) : Nat → CalDate
  | 0 => d
  | n + 1 => nextDay (addDays d n)

/-- Strict chronological order on calendar dates. -/
def dateLtB (a b : CalDate) : Bool :=
  a.year < b.year ||
    (a.year == b.year &&
      (a.month < b.month || (a.month == b.month && a.day < b.day)))

/-- Non-strict chronological order on calendar dates. -/
def dateLeB (a b : CalDate) : Bool := !(dateLtB b a)

/-- Zero-padded ISO rendering `YYYY-MM-DD` as a character list; models
`strftime("%Y-%m-%d")` for years up to 9999. -/
def toISOchars (d : CalDate) : List Char :=
  pad2 (d.year / 100) ++ (pad2 (d.year % 100) ++
    ('-' :: (pad2 d.month ++ ('-' :: pad2 d.day))))

/-- String form of `toISOchars`. -/
def toISO (d : CalDate) : String := ⟨toISOchars d⟩

/-- Numeric value of a digit character. -/
def dval (c : Char) : Nat := c.toNat - 48

/-- Recogniser for decimal digit characters. -/
def isDigitCh (c : Char) : Bool := 48 ≤ c.toNat && c.toNat ≤ 57

/-- Parse a `YYYY-MM-DD` string into a calendar date. -/
def parseDate (s : String) : Option CalDate :=
  match s.data with
  | [y1, y2, y3, y4, h1, m1, m2, h2, d1, d2] =>
    if isDigitCh y1 && isDigitCh y2 && isDigitCh y3 && isDigitCh y4 && h1 == '-'
        && isDigitCh m1 && isDigitCh m2 && h2 == '-' && isDigitCh d1 && isDigitCh d2 then
      some ⟨dval y1 * 1000 + dval y2 * 100 + dval y3 * 10 + dval y4,
            dval m1 * 10 + dval m2,
            dval d1 * 10 + dval d2⟩
    else none
  | _ => none

/-- A string is a canonical ISO date: it parses to a valid calendar date
whose rendering is the string itself. -/
def isoCanonicalB (s : String) : Bool :=
  match parseDate s with
  | some d => validDateB d && (toISO d == s)
  | none => false

/-- Accumulating decimal parser. -/
def parseGo (acc : Nat) : List Char → Option Nat
  | [] => some acc
  | c :: cs => if isDigitCh c then parseGo (acc * 10 + dval c) cs else none

/-- Parse a non-empty all-digit string as a natural number. Models the
numeric-affinity conversion SQLite applies when comparing the `INTEGER`
`id` column with a bound text value (on canonical digit strings). -/
def parseNatS (s : String) : Option Nat :=
  match s.data with
  | [] => none
  | cs => parseGo 0 cs

/-- Decimal digits of `n`, most significant first, with fuel. -/
def digitsAux : Nat → Nat → List Char
  | 0, _ => []
  | fuel + 1, n =>
    if n < 10 then [digitChar n]
    else digitsAux fuel (n / 10) ++ [digitChar (n % 10)]

/-- Decimal rendering of a natural number (model of Python `str(int)`). -/
def natToStr (n : Nat) : String := ⟨digitsAux (n + 1) n⟩

/-- One row of the `candidatures` table. `none` models SQL `NULL`.
The schema declares `titre TEXT NOT NULL`; all other text columns are
nullable. `id` is the `INTEGER PRIMARY KEY AUTOINCREMENT` key. -/
structure Rec where
  id : Nat
  numero : Option String
  titre : Option String
  «structure» : Option String
  date_limite : Option String
  priorite : Option String
  canal_envoi : Option String
  statut : Option String
  date_envoi : Option String
  notes : Option String
  created_at : Option String
deriving DecidableEq

/-- Embedded `WHERE` clause of `count_deadline_within`'s query:
`statut = 'À postuler' AND date_limite IS NOT NULL AND
date_limite BETWEEN :d1 AND :d2`, with `:d1` the formatted `asOf` date
and `:d2` the formatted `asOf + days`.  `BETWEEN` is inclusive on both
ends and compares `TEXT` under the `BINARY` collation (`lexLe`). -/
def sqlDueSoonB (asOf : CalDate) (days : Nat) (r : Rec) : Bool :=
  (r.statut == some "À postuler") &&
    (match r.date_limite with
     | none => false
     | some s => lexLe (toISO asOf).data s.data && lexLe s.data (toISO (addDays asOf days)).data)

/-- Result of `q.next() and q.value(0) or 0` on the rows returned by the
count query: Python truthiness turns a missing row, and a zero count,
into `0`. -/
def countQueryResult : List Nat → Nat
  | [] => 0
  | v :: _ => if v = 0 then 0 else v

/-- Embedding of `MainWindow.count_deadline_within`.  `execOk` is the
outcome of `q.exec()`: when the query fails the method returns 0 without
raising; when it succeeds, the single returned row holds the SQL count. -/
def count_deadline_within (st : List Rec) (asOf : CalDate) (days : Nat) (execOk : Bool) : Nat :=
  if execOk then countQueryResult [(st.filter (sqlDueSoonB asOf days)).length]
  else 0

/-- Modelled from the spec: the claim's counting predicate — `statut`
equals `"À postuler"`, `date_limite` is present, and as a calendar date
it satisfies `asOf ≤ date_limite ≤ asOf + windowDays`, both bounds
inclusive. -/
def dueSoonSpec (asOf : CalDate) (days : Nat) (r : Rec) : Bool :=
  (r.statut == some "À postuler") &&
    (match r.date_limite with
     | none => false
     | some s =>
       match parseDate s with
       | none => false
       | some d => dateLeB asOf d && dateLeB d (addDays asOf days))

/-- Character-class kinds reachable through backslash escapes in the
modelled PCRE subset (`\d`, `\w`, `\s` and their negations). -/
inductive ClsKind where
  | digit | word | space | ndigit | nword | nspace
deriving DecidableEq

/-- Membership test of a character in a character-class kind (ASCII
semantics, PCRE defaults). -/
def kindMatch : ClsKind → Char → Bool
  | .digit, c => isDigitCh c
  | .word, c => c.isAlphanum || c == '_'
  | .space, c => isPySpace c
  | .ndigit, c => !(isDigitCh c)
  | .nword, c => !(c.isAlphanum || c == '_')
  | .nspace, c => !(isPySpace c)

/-- Regular-expression abstract syntax for the modelled PCRE subset:
the empty language, the empty word, a literal, `.`, a class escape,
concatenation, alternation and Kleene star. -/
inductive RE where
  | emp | eps
  | lit (c : Char)
  | anyc
  | kind (k : ClsKind)
  | seq (a b : RE)
  | alt (a b : RE)
  | star (a : RE)
deriving DecidableEq

/-- Case-insensitive literal-character match, as performed by
`QRegularExpression.CaseInsensitiveOption`. -/
def ciMatch (c h : Char) : Bool := pyLower c == pyLower h

/-- Nullability: whether the expression matches the empty word. -/
def nullable : RE → Bool
  | .emp => false
  | .eps => true
  | .lit _ => false
  | .anyc => false
  | .kind _ => false
  | .seq a b => nullable a && nullable b
  | .alt a b => nullable a || nullable b
  | .star _ => true

/-- Brzozowski derivative of an expression by one subject character.
`.` does not match a newline (PCRE default). -/
def derivRE (r : RE) (h : Char) : RE :=
  match r with
  | .emp => .emp
  | .eps => .emp
  | .lit c => if ciMatch c h then .eps else .emp
  | .anyc => if h == '\n' then .emp else .eps
  | .kind k => if kindMatch k h then .eps else .emp
  | .seq a b =>
    if nullable a then .alt (.seq (derivRE a h) b) (derivRE b h)
    else .seq (derivRE a h) b
  | .alt a b => .alt (derivRE a h) (derivRE b h)
  | .star a => .seq (derivRE a h) (.star a)

/-- Whether some (possibly empty) leading segment of the subject matches
the expression. -/
def matchesFromStart (r : RE) : List Char → Bool
  | [] => nullable r
  | c :: cs => nullable r || matchesFromStart (derivRE r c) cs

/-- Unanchored search: whether the expression matches anywhere in the
subject, i.e. `QRegularExpression.match(subject).hasMatch()`. -/
def searchRE (r : RE) : List Char → Bool
  | [] => nullable r
  | c :: cs => matchesFromStart r (c :: cs) || searchRE r cs

/-- Concatenation of literal characters, the compiled form of a
metacharacter-free pattern. -/
def litSeq : List Char → RE
  | [] => .eps
  | c :: cs => .seq (.lit c) (litSeq cs)

/-- PCRE metacharacters: a pattern character with no special meaning is
any character outside this list. -/
def isMeta (c : Char) : Bool :=
  c == '.' || c == '^' || c == '$' || c == '*' || c == '+' || c == '?' ||
  c == '(' || c == ')' || c == '[' || c == ']' || c == '{' || c == '}' ||
  c == '|' || c == '\\'

/-- Consume a lazy-quantifier marker `?` directly after a quantifier. -/
def eatLazy : List Char → List Char
  | '?' :: r => r
  | r => r

/-- Apply an optional quantifier following an atom. -/
def applyQuants (a : RE) (r : List Char) : RE × List Char :=
  match r with
  | [] => (a, r)
  | c :: rest =>
    if c = '*' then (.star a, eatLazy rest)
    else if c = '+' then (.seq a (.star a), eatLazy rest)
    else if c = '?' then (.alt a .eps, eatLazy rest)
    else (a, r)

/-- Meaning of a backslash escape: class escapes, control escapes, and
identity on punctuation; alphanumeric escapes without a defined meaning
(including the unsupported anchor escapes) are compile errors. -/
def escAtom (c : Char) : Option RE :=
  if c == 'd' then some (.kind .digit)
  else if c == 'D' then some (.kind .ndigit)
  else if c == 'w' then some (.kind .word)
  else if c == 'W' then some (.kind .nword)
  else if c == 's' then some (.kind .space)
  else if c == 'S' then some (.kind .nspace)
  else if c == 'n' then some (.lit '\n')
  else if c == 't' then some (.lit '\t')
  else if c == 'r' then some (.lit '\r')
  else if c.isAlphanum then none
  else some (.lit c)

/-- Grammar level of the pattern parser: alternation, concatenation or
atom. -/
inductive PMode where
  | alt | cat | atom
deriving DecidableEq

/-- Fuel-bounded recursive-descent parser for the modelled PCRE subset,
one function for the three grammar levels.  At `alt` level it parses
`cat ('|' cat)*`; at `cat` level a (possibly empty) run of quantified
atoms, stopping before `)` or `|`; at `atom` level a group, `.`, an
escape, or an ordinary character — a metacharacter in atom position
(including a dangling quantifier and the unsupported class/anchor
syntax) is a compile error. -/
def parseRE : Nat → PMode → List Char → Option (RE × List Char)
  | 0, _, _ => none
  | fuel + 1, .alt, cs =>
    match parseRE fuel .cat cs with
    | none => none
    | some (a, r) =>
      match r with
      | '|' :: r2 =>
        match parseRE fuel .alt r2 with
        | none => none
        | some (b, r3) => some (.alt a b, r3)
      | _ => some (a, r)
  | fuel + 1, .cat, cs =>
    match cs with
    | [] => some (.eps, [])
    | c :: _ =>
      if c = ')' || c = '|' then some (.eps, cs)
      else
        match parseRE fuel .atom cs with
        | none => none
        | some (a, r) =>
          match applyQuants a r with
          | (a2, r2) =>
            match parseRE fuel .cat r2 with
            | none => none
            | some (b, r3) => some (.seq a2 b, r3)
  | fuel + 1, .atom, cs =>
    match cs with
    | [] => none
    | '(' :: r =>
      match parseRE fuel .alt r with
      | none => none
      | some (a, r2) =>
        match r2 with
        | ')' :: r3 => some (a, r3)
        | _ => none
    | '.' :: r => some (.anyc, r)
    | '\\' :: c2 :: r2 =>
      match escAtom c2 with
      | none => none
      | some a => some (a, r2)
    | '\\' :: [] => none
    | c :: r => if isMeta c then none else some (.lit c, r)

/-- Compile a search pattern, modelling `QRegularExpression` over the
PCRE subset of `RE`; `none` both for genuinely invalid patterns (such as
an unmatched parenthesis) and for constructs outside the modelled subset
(character classes, braces, anchors).  An uncompilable pattern never
matches any subject. -/
def compileRE (s : String) : Option RE :=
  match parseRE (4 * s.data.length + 4) .alt s.data with
  | some (r, []) => some r
  | _ => none

/-- A pattern made only of non-metacharacters, which the engine treats
as a literal word. -/
def literalSafe (s : String) : Bool := s.data.all (fun c => !(isMeta c))

/-- Filter state of `CandidatureFilterProxy`: the stored search pattern
text, the status and priority equality filters (already mapped through
their `(Tous)`/`(Toutes)` sentinels), and the maximum-deadline cutoff. -/
structure FilterState where
  search : String
  filter_statut : Option String
  filter_priorite : Option String
  max_deadline : Option String
deriving DecidableEq

/-- Embedding of `set_search_text`: the proxy stores the raw text as the
pattern of a case-insensitive `QRegularExpression`. -/
def set_search_text (fs : FilterState) (text : String) : FilterState :=
  { fs with search := text }

/-- Embedding of `set_filter_statut` with its `"(Tous)"` sentinel. -/
def set_filter_statut (fs : FilterState) (statut : Option String) : FilterState :=
  { fs with filter_statut :=
      match truthyS statut with
      | none => none
      | some s => if s == "(Tous)" then none else some s }

/-- Embedding of `set_filter_priorite` with its `"(Toutes)"` sentinel. -/
def set_filter_priorite (fs : FilterState) (priorite : Option String) : FilterState :=
  { fs with filter_priorite :=
      match truthyS priorite with
      | none => none
      | some s => if s == "(Toutes)" then none else some s }

/-- Embedding of `set_max_deadline`. -/
def set_max_deadline (fs : FilterState) (date_str : Option String) : FilterState :=
  { fs with max_deadline := date_str }

/-- Embedding of the row-local helper `data(col_name)` in
`filterAcceptsRow`: `(model.data(idx) or "").lower()`. -/
def dataField (v : Option String) : String := pyLowerS (v.getD "")

/-- Model of `" ".join(...)`. -/
def joinSp : List String → String
  | [] => ""
  | [s] => s
  | s :: rest => s ++ " " ++ joinSp rest

/-- The search haystack: lowercased `numero, titre, structure, priorite,
canal_envoi, statut, notes` joined with single spaces. -/
def hayOf (r : Rec) : String :=
  joinSp [dataField r.numero, dataField r.titre, dataField r.«structure»,
          dataField r.priorite, dataField r.canal_envoi, dataField r.statut,
          dataField r.notes]

/-- Embedding of the `max_deadline` section of `filterAcceptsRow`:
skipped entirely when `self.max_deadline` is falsy; a falsy (`NULL` or
empty) `date_limite` passes; otherwise the row is rejected exactly when
`date_limite > max_deadline` as Python strings. -/
def deadlinePass (max_deadline : Option String) (dl : Option String) : Bool :=
  match truthyS max_deadline with
  | none => true
  | some m =>
    match dl with
    | none => true
    | some s => if s == "" then true else !(pyGtStr s m)

/-- Embedding of `CandidatureFilterProxy.filterAcceptsRow`: the search
regex section (entered when the stored pattern text is non-empty; an
uncompilable pattern matches nothing), the status and priority equality
sections (lowercased comparison), and the maximum-deadline section. -/
def filterAcceptsRow (fs : FilterState) (r : Rec) : Bool :=
  (if fs.search == "" then true
   else
     match compileRE fs.search with
     | none => false
     | some re => searchRE re (hayOf r).data) &&
  (match fs.filter_statut with
   | none => true
   | some v => dataField r.statut == pyLowerS v) &&
  (match fs.filter_priorite with
   | none => true
   | some v => dataField r.priorite == pyLowerS v) &&
  deadlinePass fs.max_deadline r.date_limite

/-- Whether the first list is a leading segment of the second. -/
def leadsList : List Char → List Char → Bool
  | [], _ => true
  | _ :: _, [] => false
  | a :: s, b :: t => a == b && leadsList s t

/-- Whether the first list occurs contiguously inside the second. -/
def substrOf (n : List Char) : List Char → Bool
  | [] => leadsList n []
  | c :: cs => leadsList n (c :: cs) || substrOf n cs

/-- Modelled from the spec: the search claim's acceptance criterion —
the case-folded search text occurs as a substring of the case-folded
concatenation (with separators) of `numero, titre, structure, priorite,
canal_envoi, statut, notes`, absent fields contributing the empty
string. -/
def searchSubstringSpec (s : String) (r : Rec) : Bool :=
  let concat := joinSp [r.numero.getD "", r.titre.getD "", r.«structure».getD "",
                        r.priorite.getD "", r.canal_envoi.getD "", r.statut.getD "",
                        r.notes.getD ""]
  substrOf (s.data.map pyLower) (concat.data.map pyLower)

/-- The nine bindable columns of an `INSERT`/`UPDATE` statement (every
column except `id` and `created_at`). `none` binds SQL `NULL`. -/
structure Payload where
  numero : Option String
  titre : Option String
  «structure» : Option String
  date_limite : Option String
  priorite : Option String
  canal_envoi : Option String
  statut : Option String
  date_envoi : Option String
  notes : Option String
deriving DecidableEq

/-- One CSV record as produced by `csv.DictReader`: `none` when the
column is absent from the header, the cell text otherwise. -/
structure CSVRow where
  id : Option String
  numero : Option String
  titre : Option String
  «structure» : Option String
  date_limite : Option String
  priorite : Option String
  canal_envoi : Option String
  statut : Option String
  date_envoi : Option String
  notes : Option String
  created_at : Option String
deriving DecidableEq

/-- The raw widget contents of `CandidatureDialog`: line-edit texts, the
two optional dates already rendered as `yyyy-MM-dd` strings, the three
combo-box selections, and the notes text. -/
structure DialogInput where
  numero : String
  titre : String
  «structure» : String
  date_limite : Option String
  priorite : String
  canal_envoi : String
  statut : String
  date_envoi : Option String
  notes : String
deriving DecidableEq

/-- Embedding of `CandidatureDialog.get_data`: rejects (returns `none`,
after a warning box) when the stripped title is empty; otherwise builds
the payload, mapping stripped-empty optional texts to `NULL`. -/
def get_data (d : DialogInput) : Option Payload :=
  let titre := pyStrip d.titre
  if titre == "" then none
  else some
    { numero := truthyS (some (pyStrip d.numero))
      titre := some titre
      «structure» := truthyS (some (pyStrip d.«structure»))
      date_limite := d.date_limite
      priorite := some d.priorite
      canal_envoi := some d.canal_envoi
      statut := some d.statut
      date_envoi := d.date_envoi
      notes := truthyS (some (pyStrip d.notes)) }

/-- Effect of `UPDATE ... SET (nine columns) WHERE id=:id` on one
matched row: every column except `id` and `created_at` is replaced. -/
def applyPayload (r : Rec) (p : Payload) : Rec :=
  { id := r.id
    numero := p.numero
    titre := p.titre
    «structure» := p.«structure»
    date_limite := p.date_limite
    priorite := p.priorite
    canal_envoi := p.canal_envoi
    statut := p.statut
    date_envoi := p.date_envoi
    notes := p.notes
    created_at := r.created_at }

/-- Fresh `AUTOINCREMENT` key: one more than the largest key in the
table. -/
def nextId (st : List Rec) : Nat := (st.map Rec.id).foldr max 0 + 1

/-- Embedding of `MainWindow._insert_row`: the `INSERT` violates the
`titre TEXT NOT NULL` constraint exactly when the bound `titre` is
`NULL`; on failure an error box is shown and the table is unchanged.
`created_at` takes its `CURRENT_TIMESTAMP` default `now`. -/
def insert_row (now : String) (st : List Rec) (p : Payload) : List Rec :=
  match p.titre with
  | none => st
  | some _ =>
    st ++ [{ id := nextId st
             numero := p.numero
             titre := p.titre
             «structure» := p.«structure»
             date_limite := p.date_limite
             priorite := p.priorite
             canal_envoi := p.canal_envoi
             statut := p.statut
             date_envoi := p.date_envoi
             notes := p.notes
             created_at := some now }]

/-- Effect of `UPDATE ... WHERE <hit>`: if the payload would set `titre`
to `NULL` on at least one matched row the statement aborts with a
constraint error and changes nothing (`none`); otherwise it succeeds —
also when zero rows match — replacing the nine columns of every matched
row. -/
def sqlUpdateWhere (st : List Rec) (hit : Rec → Bool) (p : Payload) : Option (List Rec) :=
  if p.titre == none && st.any hit then none
  else some (st.map fun r => if hit r then applyPayload r p else r)

/-- Embedding of `MainWindow._update_row` on the row with key `i`:
on a constraint error an error box is shown and the table is kept. -/
def update_row (st : List Rec) (i : Nat) (p : Payload) : List Rec :=
  match sqlUpdateWhere st (fun r => r.id == i) p with
  | some st2 => st2
  | none => st

/-- Embedding of the `DELETE FROM candidatures WHERE id = i` statement
run by `delete_selected` after confirmation. -/
def deleteById (st : List Rec) (i : Nat) : List Rec :=
  st.filter (fun r => !(r.id == i))

/-- Match of the `INTEGER` key column against the bound text `:id`,
through SQLite's numeric affinity: digit strings compare numerically,
non-numeric text matches no row. -/
def ridMatch (rid : String) (i : Nat) : Bool :=
  match parseNatS rid with
  | some n => n == i
  | none => false

/-- The payload built from one CSV row by `import_csv`:
`row.get(k) or None` for each of the nine columns. -/
def payloadOf (row : CSVRow) : Payload :=
  { numero := truthyS row.numero
    titre := truthyS row.titre
    «structure» := truthyS row.«structure»
    date_limite := truthyS row.date_limite
    priorite := truthyS row.priorite
    canal_envoi := truthyS row.canal_envoi
    statut := truthyS row.statut
    date_envoi := truthyS row.date_envoi
    notes := truthyS row.notes }

/-- Per-row logic of `MainWindow.import_csv`: a truthy `id` cell leads
to an `UPDATE ... WHERE id=:id`, with a fallback `INSERT` only when that
`UPDATE`'s execution fails; a missing or empty `id` cell leads directly
to an `INSERT`. -/
def importRow (now : String) (st : List Rec) (row : CSVRow) : List Rec :=
  let payload := payloadOf row
  match truthyS row.id with
  | some rid =>
    match sqlUpdateWhere st (fun r => ridMatch rid r.id) payload with
    | some st2 => st2
    | none => insert_row now st payload
  | none => insert_row now st payload

/-- Embedding of `MainWindow.import_csv`: the rows of the file are
processed in order, each independently. -/
def import_csv (now : String) (rows : List CSVRow) (st : List Rec) : List Rec :=
  rows.foldl (importRow now) st

/-- One exported CSV record of `MainWindow.export_csv`: every column of
the header is written, `NULL` cells as the empty string and the integer
key in decimal. -/
def exportRow (r : Rec) : CSVRow :=
  { id := some (natToStr r.id)
    numero := some (r.numero.getD "")
    titre := some (r.titre.getD "")
    «structure» := some (r.«structure».getD "")
    date_limite := some (r.date_limite.getD "")
    priorite := some (r.priorite.getD "")
    canal_envoi := some (r.canal_envoi.getD "")
    statut := some (r.statut.getD "")
    date_envoi := some (r.date_envoi.getD "")
    notes := some (r.notes.getD "")
    created_at := some (r.created_at.getD "") }

/-- Embedding of `MainWindow.export_csv`: one CSV record per table row,
in table order. -/
def export_csv (st : List Rec) : List CSVRow := st.map exportRow

/-- Exporting the table and importing the unmodified file back. -/
def roundTrip (now : String) (st : List Rec) : List Rec :=
  import_csv now (export_csv st) st

/-- The pieces of `MainWindow` state the reminder subsystem touches:
the table, the configured reminder window (`spin_remind`, default 3)
and the alert label's text. -/
structure AppState where
  store : List Rec
  remind_days : Nat
  lbl_alerts : String
deriving DecidableEq

/-- Interval of the reminder `QTimer`, in milliseconds. -/
def timer_interval_ms : Nat := 60 * 1000

/-- The alert label text `⚠ {n} candidature(s) avec date limite ≤ {d} j`. -/
def alertText (n days : Nat) : String :=
  "⚠ " ++ natToStr n ++ " candidature(s) avec date limite ≤ " ++ natToStr days ++ " j"

/-- Embedding of `MainWindow.update_reminders`: recompute the due-soon
count and set the alert label — the count and the window when positive,
the empty (hidden) text when zero. -/
def update_reminders (execOk : Bool) (asOf : CalDate) (s : AppState) : AppState :=
  let n := count_deadline_within s.store asOf s.remind_days execOk
  { s with lbl_alerts := if n > 0 then alertText n s.remind_days else "" }

/-- The events that reach `MainWindow`'s handlers: the 60-second timer
tick, the deferred startup check, the CRUD actions, CSV import/export,
and a change of the reminder spin box. -/
inductive UIEvent where
  | timerTick
  | startupCheck
  | addRecord (raw : DialogInput)
  | editRecord (i : Nat) (raw : DialogInput)
  | deleteRecord (i : Nat)
  | importFile (rows : List CSVRow)
  | exportFile
  | remindDaysChanged (n : Nat)

/-- One event dispatch of `MainWindow`.  The timer tick and the startup
check run `update_reminders`; `on_remind_days_changed` stores the new
window and runs `update_reminders`; the add/edit/delete/import slots
mutate the table and refresh the model but do not touch the alert
label. -/
def step (execOk : Bool) (now : String) (asOf : CalDate) : UIEvent → AppState → AppState
  | .timerTick, s => update_reminders execOk asOf s
  | .startupCheck, s => update_reminders execOk asOf s
  | .addRecord raw, s =>
    match get_data raw with
    | none => s
    | some p => { s with store := insert_row now s.store p }
  | .editRecord i raw, s =>
    match get_data raw with
    | none => s
    | some p => { s with store := update_row s.store i p }
  | .deleteRecord i, s => { s with store := deleteById s.store i }
  | .importFile rows, s => { s with store := import_csv now rows s.store }
  | .exportFile, s => s
  | .remindDaysChanged n, s => update_reminders execOk asOf { s with remind_days := n }

/-- The window's initial state: empty table, default 3-day window,
empty alert label. -/
def initState : AppState := ⟨[], 3, ""⟩

/-- Run a sequence of events from a state. -/
def runEvents (execOk : Bool) (now : String) (asOf : CalDate) (evs : List UIEvent) (s : AppState) : AppState :=
  evs.foldl (fun acc e => step execOk now asOf e acc) s

/-- A record whose `titre` is present and non-empty and whose optional
text columns are never the empty string (they are `NULL` instead) — the
shape every record produced by the application's own flows has. -/
def goodRecB (r : Rec) : Bool :=
  r.titre != none && r.titre != some "" &&
  r.numero != some "" && r.«structure» != some "" && r.date_limite != some "" &&
  r.priorite != some "" && r.canal_envoi != some "" && r.statut != some "" &&
  r.date_envoi != some "" && r.notes != some ""

/-- A record's `date_limite`, when present, is a canonical ISO date. -/
def dlCanonical (r : Rec) : Bool :=
  match r.date_limite with
  | none => true
  | some s => isoCanonicalB s

/-- Fixture: the spec's scenario record — `À postuler`, deadline
2025-01-10. -/
def recDue : Rec :=
  ⟨1, none, some "Dev", none, some "2025-01-10", some "Moyenne", some "Email",
   some "À postuler", none, none, some "2025-01-01 09:00:00"⟩

/-- Fixture: the same record with `statut = "Envoyé"`. -/
def recSent : Rec :=
  ⟨1, none, some "Dev", none, some "2025-01-10", some "Moyenne", some "Email",
   some "Envoyé", none, none, some "2025-01-01 09:00:00"⟩

/-- Fixture: the spec's reference date 2025-01-08. -/
def asOfJan8 : CalDate := ⟨2025, 1, 8⟩

/-- Fixture: a record whose only text is the title `abc`. -/
def recAbc : Rec := ⟨1, none, some "abc", none, none, none, none, none, none, none, none⟩

/-- Fixture: a record sent through `Recommandation` whose other fields
never mention that word. -/
def recRecom : Rec :=
  ⟨2, none, some "Dev", none, none, none, some "Recommandation", none, none, none, none⟩

/-- Fixture: a record whose title contains a literal parenthesis. -/
def recParen : Rec := ⟨3, none, some "a(b", none, none, none, none, none, none, none, none⟩

/-- Fixture: a CSV row carrying `id = 7` and a title, as `DictReader`
yields it for a two-column file. -/
def row7 : CSVRow := ⟨some "7", none, some "X", none, none, none, none, none, none, none, none⟩

/-- Fixture: a CSV row whose `titre` cell is a single space. -/
def rowBlankTitre : CSVRow :=
  ⟨none, none, some " ", none, none, none, none, none, none, none, none⟩

/-- Fixture: dialog input for an application due on 2025-01-10, still
to be submitted. -/
def rawDue : DialogInput :=
  ⟨"", "Dev", "", some "2025-01-10", "Moyenne", "Email", "À postuler", none, ""⟩

/-- Fixture: a well-formed one-record store. -/
def stGood : List Rec :=
  [⟨1, some "N1", some "Dev", none, some "2025-01-10", some "Moyenne", some "Email",
    some "À postuler", none, some "notes", some "2025-01-01 10:00:00"⟩]

/-- Fixture: a one-record store whose `numero` is the empty string
rather than `NULL`. -/
def stEmptyNumero : List Rec :=
  [⟨1, some "", some "T", none, none, none, none, none, none, none, some "2025-01-01 10:00:00"⟩]

/-! Order lemmas for the `BINARY`/code-point string comparison. -/

theorem lexLt_cons_eq (a b : Char) (s t : List Char) :
    lexLt (a :: s) (b :: t) =
      (if a.toNat < b.toNat then true
       else if b.toNat < a.toNat then false
       else lexLt s t) := rfl

theorem lexLt_nil_left (t : List Char) : lexLt [] t = (t ≠ []) := by
  cases t <;> simp [lexLt]

theorem lexLt_nil_right (s : List Char) : lexLt s [] = false := by
  cases s <;> simp [lexLt]

theorem lexLe_trans {a b c : List Char} (h1 : lexLe a b = true) (h2 : lexLe b c = true) :
    lexLe a c = true := by
  induction a generalizing b c with
  | nil =>
    cases c with
    | nil => simp [lexLe, lexLt]
    | cons z u => simp [lexLe, lexLt]
  | cons x s ih =>
    cases b with
    | nil => simp [lexLe, lexLt] at h1
    | cons y t =>
      cases c with
      | nil => simp [lexLe, lexLt] at h2
      | cons z u =>
        simp only [lexLe, Bool.not_eq_true'] at h1 h2 ⊢
        rw [lexLt_cons_eq] at h1 h2 ⊢
        by_cases hyx : y.toNat < x.toNat
        · rw [if_pos hyx] at h1; exact absurd h1 (by simp)
        · rw [if_neg hyx] at h1
          by_cases hzy : z.toNat < y.toNat
          · rw [if_pos hzy] at h2; exact absurd h2 (by simp)
          · rw [if_neg hzy] at h2
            by_cases hzx : z.toNat < x.toNat
            · omega
            · rw [if_neg hzx]
              by_cases hxz : x.toNat < z.toNat
              · rw [if_pos hxz]
              · rw [if_neg hxz]
                rw [if_neg (by omega : ¬ x.toNat < y.toNat)] at h1
                rw [if_neg (by omega : ¬ y.toNat < z.toNat)] at h2
                have h3 := ih (b := t) (c := u)
                  (by simpa [lexLe] using h1) (by simpa [lexLe] using h2)
                simpa [lexLe] using h3

theorem digitChar_toNat (d : Nat) (h : d < 10) : (digitChar d).toNat = 48 + d := by
  interval_cases d <;> rfl

theorem lexLt_pad2_append (a b : Nat) (ha : a < 100) (hb : b < 100) (r s : List Char) :
    lexLt (pad2 a ++ r) (pad2 b ++ s) =
      (if a < b then true else if b < a then false else lexLt r s) := by
  have e1 : a / 10 % 10 = a / 10 := by omega
  have e2 : b / 10 % 10 = b / 10 := by omega
  simp only [pad2, e1, e2, List.cons_append, List.nil_append]
  rw [lexLt_cons_eq, lexLt_cons_eq]
  rw [digitChar_toNat (a / 10) (by omega), digitChar_toNat (b / 10) (by omega),
      digitChar_toNat (a % 10) (by omega), digitChar_toNat (b % 10) (by omega)]
  split_ifs <;> first | rfl | omega

theorem lexLt_dash_cons (r s : List Char) : lexLt ('-' :: r) ('-' :: s) = lexLt r s := by
  rw [lexLt_cons_eq]; simp

theorem lexLt_year_append (a b : Nat) (ha : a ≤ 9999) (hb : b ≤ 9999) (r s : List Char) :
    lexLt (pad2 (a / 100) ++ (pad2 (a % 100) ++ r)) (pad2 (b / 100) ++ (pad2 (b % 100) ++ s)) =
      (if a < b then true else if b < a then false else lexLt r s) := by
  rw [lexLt_pad2_append _ _ (by omega) (by omega),
      lexLt_pad2_append _ _ (by omega) (by omega)]
  split_ifs <;> first | rfl | omega

theorem lexLt_pad2 (a b : Nat) (ha : a < 100) (hb : b < 100) :
    lexLt (pad2 a) (pad2 b) = decide (a < b) := by
  have h := lexLt_pad2_append a b ha hb [] []
  rw [List.append_nil, List.append_nil] at h
  rw [h, lexLt_nil_right]
  split_ifs with h1 h2 <;> simp <;> omega

theorem lexLt_toISO (a b : CalDate) (hy1 : a.year ≤ 9999) (hy2 : b.year ≤ 9999)
    (hm1 : a.month ≤ 99) (hm2 : b.month ≤ 99) (hd1 : a.day ≤ 99) (hd2 : b.day ≤ 99) :
    lexLt (toISOchars a) (toISOchars b) = dateLtB a b := by
  unfold toISOchars
  rw [lexLt_year_append _ _ hy1 hy2]
  rw [lexLt_dash_cons, lexLt_pad2_append _ _ (by omega) (by omega),
      lexLt_dash_cons, lexLt_pad2 _ _ (by omega) (by omega)]
  split_ifs with h1 h2 h3 h4 <;>
    (rw [Bool.eq_iff_iff];
     simp only [dateLtB, Bool.or_eq_true, Bool.and_eq_true, decide_eq_true_eq, beq_iff_eq];
     constructor <;> intro h5 <;> first | trivial | omega)

theorem lexLe_toISO (a b : CalDate) (hy1 : a.year ≤ 9999) (hy2 : b.year ≤ 9999)
    (hm1 : a.month ≤ 99) (hm2 : b.month ≤ 99) (hd1 : a.day ≤ 99) (hd2 : b.day ≤ 99) :
    lexLe (toISOchars a) (toISOchars b) = dateLeB a b := by
  unfold lexLe dateLeB
  rw [lexLt_toISO b a hy2 hy1 hm2 hm1 hd2 hd1]

/-! Calendar lemmas. -/

theorem daysInMonth_pos (y m : Nat) : 1 ≤ daysInMonth y m := by
  unfold daysInMonth
  split_ifs <;> omega

theorem daysInMonth_le (y m : Nat) : daysInMonth y m ≤ 31 := by
  unfold daysInMonth
  split_ifs <;> omega

theorem validDateB_iff (d : CalDate) :
    validDateB d = true ↔
      1 ≤ d.month ∧ d.month ≤ 12 ∧ 1 ≤ d.day ∧ d.day ≤ daysInMonth d.year d.month := by
  unfold validDateB
  simp only [Bool.and_eq_true, decide_eq_true_eq]
  tauto

theorem nextDay_valid (d : CalDate) (h : validDateB d = true) :
    validDateB (nextDay d) = true := by
  rw [validDateB_iff] at h
  have hp1 := daysInMonth_pos d.year (d.month + 1)
  have hp2 := daysInMonth_pos (d.year + 1) 1
  unfold nextDay
  split_ifs with h1 h2 <;> (rw [validDateB_iff]; try dsimp only) <;> omega

theorem nextDay_year_bounds (d : CalDate) :
    d.year ≤ (nextDay d).year ∧ (nextDay d).year ≤ d.year + 1 := by
  unfold nextDay
  split_ifs <;> (try dsimp only) <;> omega

theorem dateLtB_nextDay (d : CalDate) :
    dateLtB d (nextDay d) = true := by
  unfold nextDay
  split_ifs with h1 h2 <;>
    (simp only [dateLtB, Bool.or_eq_true, Bool.and_eq_true, decide_eq_true_eq, beq_iff_eq,
       true_and, and_true, lt_self_iff_false, false_or];
     omega)

theorem dateLeB_refl (d : CalDate) : dateLeB d d = true := by
  simp only [dateLeB, dateLtB, Bool.not_eq_true']
  simp

theorem dateLeB_of_dateLtB {a b : CalDate} (h : dateLtB a b = true) : dateLeB a b = true := by
  simp only [dateLtB, Bool.or_eq_true, Bool.and_eq_true, decide_eq_true_eq, beq_iff_eq] at h
  simp only [dateLeB, Bool.not_eq_true']
  rw [Bool.eq_false_iff]
  intro hc
  simp only [dateLtB, Bool.or_eq_true, Bool.and_eq_true, decide_eq_true_eq, beq_iff_eq] at hc
  omega

theorem dateLeB_trans {a b c : CalDate} (h1 : dateLeB a b = true) (h2 : dateLeB b c = true) :
    dateLeB a c = true := by
  simp only [dateLeB, Bool.not_eq_true', Bool.eq_false_iff] at h1 h2 ⊢
  intro hc
  simp only [dateLtB, Bool.or_eq_true, Bool.and_eq_true, decide_eq_true_eq, beq_iff_eq] at hc
  rcases Bool.eq_false_or_eq_true (dateLtB b a) with hba | hba
  · exact h1 hba
  · rcases Bool.eq_false_or_eq_true (dateLtB c b) with hcb | hcb
    · exact h2 hcb
    · simp [dateLtB] at hba hcb
      omega

theorem addDays_valid (d : CalDate) (h : validDateB d = true) (n : Nat) :
    validDateB (addDays d n) = true := by
  induction n with
  | zero => exact h
  | succ k ih => exact nextDay_valid _ ih

theorem addDays_year_le (d : CalDate) (n : Nat) : (addDays d n).year ≤ d.year + n := by
  induction n with
  | zero => simp [addDays]
  | succ k ih =>
    have := (nextDay_year_bounds (addDays d k)).2
    simp only [addDays]
    omega

theorem addDays_mono (d : CalDate) {w1 w2 : Nat} (hw : w1 ≤ w2) :
    dateLeB (addDays d w1) (addDays d w2) = true := by
  have key : ∀ k, dateLeB (addDays d w1) (addDays d (w1 + k)) = true := by
    intro k
    induction k with
    | zero => exact dateLeB_refl _
    | succ j ih =>
      have h2 : dateLeB (addDays d (w1 + j)) (addDays d (w1 + j + 1)) = true :=
        dateLeB_of_dateLtB (dateLtB_nextDay (addDays d (w1 + j)))
      exact dateLeB_trans ih h2
  have h3 := key (w2 - w1)
  rwa [Nat.add_sub_cancel' hw] at h3

theorem filter_length_mono {α : Type} (l : List α) (p q : α → Bool)
    (h : ∀ a ∈ l, p a = true → q a = true) :
    (l.filter p).length ≤ (l.filter q).length := by
  induction l with
  | nil => simp
  | cons x xs ih =>
    have ih2 := ih (fun a ha hpa => h a (List.mem_cons_of_mem _ ha) hpa)
    by_cases hp : p x = true
    · have hq := h x (List.mem_cons_self _ _) hp
      simp only [List.filter_cons, hp, hq, if_true, List.length_cons]
      omega
    · have hp2 : p x = false := by simpa using hp
      simp only [List.filter_cons, hp2, Bool.false_eq_true, if_false]
      cases hq : q x with
      | false => simpa [hq] using ih2
      | true =>
        simp only [hq, if_true, List.length_cons]
        omega

theorem parseDate_bounds {s : String} {d : CalDate} (h : parseDate s = some d) :
    d.year ≤ 9999 ∧ d.month ≤ 99 ∧ d.day ≤ 99 := by
  unfold parseDate at h
  split at h
  · rename_i y1 y2 y3 y4 h1 m1 m2 h2 d1 d2 heq
    split_ifs at h with hg
    simp only [Bool.and_eq_true, isDigitCh, decide_eq_true_eq, beq_iff_eq] at hg
    cases h
    dsimp only
    unfold dval
    omega
  · exact absurd h (by simp)

theorem sqlDueSoon_eq_spec (asOf : CalDate) (w : Nat) (r : Rec)
    (hA : validDateB asOf = true) (hY : asOf.year + w ≤ 9999)
    (hr : dlCanonical r = true) :
    sqlDueSoonB asOf w r = dueSoonSpec asOf w r := by
  unfold sqlDueSoonB dueSoonSpec
  unfold dlCanonical at hr
  cases hdl : r.date_limite with
  | none => rfl
  | some s =>
    rw [hdl] at hr
    dsimp only at hr
    unfold isoCanonicalB at hr
    cases hp : parseDate s with
    | none => rw [hp] at hr; exact absurd hr (by simp)
    | some dd =>
      rw [hp] at hr
      dsimp only
      simp only [Bool.and_eq_true, beq_iff_eq] at hr
      obtain ⟨hval, hiso⟩ := hr
      obtain ⟨hy, hm, hd⟩ := parseDate_bounds hp
      have hAv := (validDateB_iff asOf).mp hA
      have hddv := (validDateB_iff dd).mp hval
      have hhiv : validDateB (addDays asOf w) = true := addDays_valid asOf hA w
      have hhb := (validDateB_iff _).mp hhiv
      have hhy : (addDays asOf w).year ≤ 9999 :=
        le_trans (addDays_year_le asOf w) (by omega)
      have hd1 := daysInMonth_le asOf.year asOf.month
      have hd2 := daysInMonth_le (addDays asOf w).year (addDays asOf w).month
      congr 1
      have hsd : s.data = toISOchars dd := by rw [← hiso]; rfl
      rw [hsd]
      have e1 : (toISO asOf).data = toISOchars asOf := rfl
      have e2 : (toISO (addDays asOf w)).data = toISOchars (addDays asOf w) := rfl
      rw [e1, e2]
      rw [lexLe_toISO asOf dd (by omega) hy (by omega) hm (by omega) hd]
      rw [lexLe_toISO dd (addDays asOf w) hy hhy hm (by omega) hd (by omega)]
      rw [hp]

theorem countQueryResult_single (n : Nat) : countQueryResult [n] = n := by
  show (if n = 0 then 0 else n) = n
  split_ifs with h <;> omega

theorem count_eq_filter_length (st : List Rec) (asOf : CalDate) (w : Nat) :
    count_deadline_within st asOf w true = (st.filter (sqlDueSoonB asOf w)).length := by
  unfold count_deadline_within
  rw [if_pos rfl]
  exact countQueryResult_single _

theorem sqlDueSoon_mono (asOf : CalDate) {w1 w2 : Nat} (hw : w1 ≤ w2)
    (hA : validDateB asOf = true) (hY : asOf.year + w2 ≤ 9999) (r : Rec)
    (h : sqlDueSoonB asOf w1 r = true) : sqlDueSoonB asOf w2 r = true := by
  unfold sqlDueSoonB at h ⊢
  simp only [Bool.and_eq_true] at h ⊢
  obtain ⟨hstat, hdl⟩ := h
  refine ⟨hstat, ?_⟩
  cases hdlv : r.date_limite with
  | none => rw [hdlv] at hdl; exact absurd hdl (by simp)
  | some s =>
    rw [hdlv] at hdl
    dsimp only at hdl ⊢
    simp only [Bool.and_eq_true] at hdl ⊢
    obtain ⟨h1, h2⟩ := hdl
    refine ⟨h1, ?_⟩
    have hv1 : validDateB (addDays asOf w1) = true := addDays_valid asOf hA w1
    have hv2 : validDateB (addDays asOf w2) = true := addDays_valid asOf hA w2
    have hb1 := (validDateB_iff _).mp hv1
    have hb2 := (validDateB_iff _).mp hv2
    have hy1 : (addDays asOf w1).year ≤ 9999 := le_trans (addDays_year_le asOf w1) (by omega)
    have hy2 : (addDays asOf w2).year ≤ 9999 := le_trans (addDays_year_le asOf w2) (by omega)
    have hdm1 := daysInMonth_le (addDays asOf w1).year (addDays asOf w1).month
    have hdm2 := daysInMonth_le (addDays asOf w2).year (addDays asOf w2).month
    have hmono : lexLe (toISOchars (addDays asOf w1)) (toISOchars (addDays asOf w2)) = true := by
      rw [lexLe_toISO _ _ hy1 hy2 (by omega) (by omega) (by omega) (by omega)]
      exact addDays_mono asOf hw
    exact lexLe_trans h2 hmono

/-- C3: for every record set, non-negative `windowDays` and reference
date `asOf` (a valid calendar date, with the window staying within the
four-digit-year range, and every stored `date_limite` a canonical ISO
date), `count_deadline_within` returns exactly the number of records
whose `statut` is `"À postuler"`, whose `date_limite` is present, and
whose `date_limite` satisfies `asOf ≤ date_limite ≤ asOf + windowDays`,
both bounds inclusive. -/
theorem c3_count_due_soon_exact (st : List Rec) (asOf : CalDate) (w : Nat)
    (hA : validDateB asOf = true) (hY : asOf.year + w ≤ 9999)
    (hst : ∀ r ∈ st, dlCanonical r = true) :
    count_deadline_within st asOf w true = (st.filter (dueSoonSpec asOf w)).length := by
  rw [count_eq_filter_length]
  have : st.filter (sqlDueSoonB asOf w) = st.filter (dueSoonSpec asOf w) :=
    List.filter_congr (fun r hr => sqlDueSoon_eq_spec asOf w r hA hY (hst r hr))
  rw [this]

/-- Witness for C3 at the spec's scenario: `statut = "À postuler"`,
`date_limite = 2025-01-10`, `asOf = 2025-01-08`, `windowDays = 3` is
counted, and the same record with `statut = "Envoyé"` is not. -/
theorem c3_count_due_soon_exact_witness :
    count_deadline_within [recDue] asOfJan8 3 true = ([recDue].filter (dueSoonSpec asOfJan8 3)).length ∧
    count_deadline_within [recDue] asOfJan8 3 true = 1 ∧
    count_deadline_within [recSent] asOfJan8 3 true = 0 :=
  ⟨c3_count_due_soon_exact [recDue] asOfJan8 3 (by decide) (by decide)
    (by intro r hr; simp only [List.mem_singleton] at hr; subst hr; decide),
   by decide, by decide⟩

/-- C8: for a fixed record set and reference date (valid, window within
the four-digit-year range), the due-soon count is monotonically
non-decreasing in `windowDays`. -/
theorem c8_count_monotone (st : List Rec) (asOf : CalDate) (w1 w2 : Nat)
    (hw : w1 ≤ w2) (hA : validDateB asOf = true) (hY : asOf.year + w2 ≤ 9999) :
    count_deadline_within st asOf w1 true ≤ count_deadline_within st asOf w2 true := by
  rw [count_eq_filter_length, count_eq_filter_length]
  exact filter_length_mono st _ _ (fun r _ h => sqlDueSoon_mono asOf hw hA hY r h)

/-- Witness for C8 at a concrete store, `w1 = 1 ≤ w2 = 3`. -/
theorem c8_count_monotone_witness :
    count_deadline_within [recDue] asOfJan8 1 true ≤ count_deadline_within [recDue] asOfJan8 3 true :=
  c8_count_monotone [recDue] asOfJan8 1 3 (by omega) (by decide) (by decide)

/-- C9: when the count query's execution fails, `count_deadline_within`
returns 0 — for every store, window and reference date — and the
reminder update treats the failure as the quiet state (empty alert
label); being a total function, it raises nothing to its caller. -/
theorem c9_count_failure_quiet (st : List Rec) (asOf : CalDate) (w : Nat) (s : AppState) :
    count_deadline_within st asOf w false = 0 ∧
    (update_reminders false asOf s).lbl_alerts = "" := by
  constructor
  · rfl
  · simp [update_reminders, count_deadline_within]

/-- C6: for every set (non-empty) maximum deadline `m`, the
max-deadline sub-filter of `filterAcceptsRow` rejects a record exactly
when its `date_limite` is present and lexicographically greater than
`m` as Python strings, and a record with no `date_limite` passes the
sub-filter unconditionally. -/
theorem c6_max_deadline_subfilter (m : String) (hm : m ≠ "") (dl : Option String) :
    (deadlinePass (some m) dl = false ↔ ∃ s, dl = some s ∧ pyGtStr s m = true) ∧
    deadlinePass (some m) none = true := by
  have hmb : (m == "") = false := by simpa using hm
  have hact : truthyS (some m) = some m := by simp [truthyS, hmb]
  constructor
  · cases dl with
    | none => simp [deadlinePass, hact]
    | some s =>
      by_cases hs : s = ""
      · subst hs
        have hgt : pyGtStr "" m = false := by
          unfold pyGtStr
          exact lexLt_nil_right m.data
        simp [deadlinePass, hact, hgt]
      · have hsb : (s == "") = false := by simpa using hs
        simp only [deadlinePass, hact, hsb, Bool.false_eq_true, if_false,
          Bool.not_eq_false']
        constructor
        · intro h
          exact ⟨s, rfl, by simpa using h⟩
        · rintro ⟨s2, hs2, hgt⟩
          cases hs2
          simpa using hgt
  · simp [deadlinePass, hact]

/-- Witness for C6: cutoff 2025-06-30 rejects a deadline of 2025-07-01. -/
theorem c6_max_deadline_subfilter_witness :
    ("2025-06-30" : String) ≠ "" ∧
    ((deadlinePass (some "2025-06-30") (some "2025-07-01") = false ↔
        ∃ s, (some "2025-07-01" : Option String) = some s ∧ pyGtStr s "2025-06-30" = true) ∧
      deadlinePass (some "2025-06-30") none = true) :=
  ⟨by decide, c6_max_deadline_subfilter "2025-06-30" (by decide) (some "2025-07-01")⟩

/-- C10: the search text is compiled as a regular-expression pattern,
not matched as a literal substring — whenever the non-empty search text
fails to compile (for example an unmatched parenthesis), the filter
predicate rejects every record, including records whose concatenated
text fields contain the search text literally. -/
theorem c10_invalid_pattern_rejects_all (fs : FilterState) (r : Rec)
    (h1 : fs.search ≠ "") (h2 : compileRE fs.search = none) :
    filterAcceptsRow fs r = false := by
  unfold filterAcceptsRow
  have hb : (fs.search == "") = false := by simpa using h1
  simp only [hb, Bool.false_eq_true, if_false, h2, Bool.false_and]

/-- Witness for C10: the pattern `(` does not compile, and a record
whose title contains `(` literally is still rejected. -/
theorem c10_invalid_pattern_rejects_all_witness :
    ("(" : String) ≠ "" ∧ compileRE "(" = none ∧
    searchSubstringSpec "(" recParen = true ∧
    filterAcceptsRow ⟨"(", none, none, none⟩ recParen = false :=
  ⟨by decide, by decide, by decide,
   c10_invalid_pattern_rejects_all ⟨"(", none, none, none⟩ recParen (by decide) (by decide)⟩

/-! Search-pattern compilation lemmas. -/

theorem parseRE_atom_eq (fuel : Nat) (cs : List Char) :
    parseRE (fuel + 1) .atom cs =
      match cs with
      | [] => none
      | '(' :: r =>
        match parseRE fuel .alt r with
        | none => none
        | some (a, r2) =>
          match r2 with
          | ')' :: r3 => some (a, r3)
          | _ => none
      | '.' :: r => some (.anyc, r)
      | '\\' :: c2 :: r2 =>
        match escAtom c2 with
        | none => none
        | some a => some (a, r2)
      | '\\' :: [] => none
      | c :: r => if isMeta c then none else some (.lit c, r) := rfl

theorem parseRE_cat_eq (fuel : Nat) (cs : List Char) :
    parseRE (fuel + 1) .cat cs =
      match cs with
      | [] => some (.eps, [])
      | c :: _ =>
        if c = ')' || c = '|' then some (.eps, cs)
        else
          match parseRE fuel .atom cs with
          | none => none
          | some (a, r) =>
            match applyQuants a r with
            | (a2, r2) =>
              match parseRE fuel .cat r2 with
              | none => none
              | some (b, r3) => some (.seq a2 b, r3) := rfl

theorem parseRE_alt_eq (fuel : Nat) (cs : List Char) :
    parseRE (fuel + 1) .alt cs =
      match parseRE fuel .cat cs with
      | none => none
      | some (a, r) =>
        match r with
        | '|' :: r2 =>
          match parseRE fuel .alt r2 with
          | none => none
          | some (b, r3) => some (.alt a b, r3)
        | _ => some (a, r) := rfl

theorem parseRE_atom_safe (f : Nat) (c : Char) (hc : isMeta c = false) (r : List Char) :
    parseRE (f + 1) .atom (c :: r) = some (.lit c, r) := by
  rw [parseRE_atom_eq]
  split <;> simp_all [isMeta]

theorem applyQuants_safe (a : RE) (r : List Char)
    (hr : r.all (fun c => !(isMeta c)) = true) : applyQuants a r = (a, r) := by
  cases r with
  | nil => rfl
  | cons c rest =>
    simp only [List.all_cons, Bool.and_eq_true, Bool.not_eq_true'] at hr
    obtain ⟨hc, _⟩ := hr
    have h1 : c ≠ '*' := by intro h; subst h; simp [isMeta] at hc
    have h2 : c ≠ '+' := by intro h; subst h; simp [isMeta] at hc
    have h3 : c ≠ '?' := by intro h; subst h; simp [isMeta] at hc
    simp only [applyQuants]
    rw [if_neg h1, if_neg h2, if_neg h3]

theorem parseRE_cat_safe : ∀ (cs : List Char), cs.all (fun c => !(isMeta c)) = true →
    ∀ f : Nat, cs.length + 2 ≤ f → parseRE f .cat cs = some (litSeq cs, []) := by
  intro cs
  induction cs with
  | nil =>
    intro _ f hf
    match f, hf with
    | f + 1, _ => rfl
  | cons c cs ih =>
    intro hsafe f hf
    simp only [List.all_cons, Bool.and_eq_true, Bool.not_eq_true'] at hsafe
    obtain ⟨hc, hcs⟩ := hsafe
    match f, hf with
    | f + 1, hf =>
      have hf2 : cs.length + 2 ≤ f := by
        simp only [List.length_cons] at hf
        omega
      have hstop : ¬ (c = ')' ∨ c = '|') := by
        rintro (h | h) <;> (subst h; simp [isMeta] at hc)
      have hatom : parseRE f .atom (c :: cs) = some (.lit c, cs) := by
        match f, hf2 with
        | f + 1, _ => exact parseRE_atom_safe f c hc cs
      have hq : applyQuants (.lit c) cs = (.lit c, cs) := applyQuants_safe _ _ hcs
      have hrest : parseRE f .cat cs = some (litSeq cs, []) := ih hcs f (by omega)
      rw [parseRE_cat_eq]
      dsimp only
      have hcond : ¬ ((decide (c = ')') || decide (c = '|')) = true) := by
        simp only [Bool.or_eq_true, decide_eq_true_eq]
        exact hstop
      rw [if_neg hcond, hatom]
      dsimp only
      rw [hq]
      dsimp only
      rw [hrest]
      rfl

theorem parseRE_alt_safe (cs : List Char) (hsafe : cs.all (fun c => !(isMeta c)) = true)
    (f : Nat) (hf : cs.length + 3 ≤ f) : parseRE f .alt cs = some (litSeq cs, []) := by
  match f, hf with
  | f + 1, hf =>
    have hcat : parseRE f .cat cs = some (litSeq cs, []) := parseRE_cat_safe cs hsafe f (by omega)
    rw [parseRE_alt_eq, hcat]

theorem compileRE_safe (s : String) (hsafe : literalSafe s = true) :
    compileRE s = some (litSeq s.data) := by
  unfold compileRE
  rw [parseRE_alt_safe s.data (by simpa [literalSafe] using hsafe) _ (by omega)]

/-! Derivative-matcher lemmas. -/

theorem mfs_emp (H : List Char) : matchesFromStart .emp H = false := by
  induction H with
  | nil => rfl
  | cons c cs ih => simp [matchesFromStart, nullable, derivRE, ih]

theorem mfs_eps (H : List Char) : matchesFromStart .eps H = true := by
  cases H <;> simp [matchesFromStart, nullable]

theorem mfs_alt (H : List Char) : ∀ a b : RE,
    matchesFromStart (.alt a b) H = (matchesFromStart a H || matchesFromStart b H) := by
  induction H with
  | nil => intro a b; rfl
  | cons c cs ih =>
    intro a b
    simp only [matchesFromStart, nullable, derivRE, ih]
    cases nullable a <;> cases nullable b <;>
      simp [Bool.or_assoc, Bool.or_comm, Bool.or_left_comm]

theorem mfs_seq_emp (H : List Char) : ∀ b : RE, matchesFromStart (.seq .emp b) H = false := by
  induction H with
  | nil => intro b; rfl
  | cons c cs ih => intro b; simp [matchesFromStart, nullable, derivRE, ih]

theorem mfs_seq_eps (H : List Char) (b : RE) :
    matchesFromStart (.seq .eps b) H = matchesFromStart b H := by
  cases H with
  | nil => simp [matchesFromStart, nullable]
  | cons c cs =>
    simp [matchesFromStart, nullable, derivRE, mfs_alt, mfs_seq_emp]

theorem ciMatch_iff {c h : Char} : ciMatch c h = true ↔ pyLower c = pyLower h := by
  simp [ciMatch]

theorem mfs_litSeq : ∀ (p H : List Char),
    matchesFromStart (litSeq p) H = true ↔
      ∃ H1 H2, H = H1 ++ H2 ∧ H1.map pyLower = p.map pyLower := by
  intro p
  induction p with
  | nil =>
    intro H
    constructor
    · intro _
      exact ⟨[], H, rfl, rfl⟩
    · intro _
      exact mfs_eps H
  | cons c p ih =>
    intro H
    cases H with
    | nil =>
      simp only [litSeq, matchesFromStart, nullable, Bool.false_and]
      constructor
      · intro h
        exact absurd h (by simp)
      · rintro ⟨H1, H2, heq, hmap⟩
        obtain ⟨h1, _⟩ := List.append_eq_nil.mp heq.symm
        subst h1
        simp at hmap
    | cons x H =>
      have step : matchesFromStart (litSeq (c :: p)) (x :: H) =
          matchesFromStart (.seq (if ciMatch c x then .eps else .emp) (litSeq p)) H := by
        simp [litSeq, matchesFromStart, nullable, derivRE]
      by_cases hm : ciMatch c x = true
      · rw [step, if_pos hm, mfs_seq_eps]
        rw [ih H]
        constructor
        · rintro ⟨K1, K2, rfl, hk⟩
          refine ⟨x :: K1, K2, rfl, ?_⟩
          simp only [List.map_cons, hk]
          rw [ciMatch_iff.mp hm]
        · rintro ⟨H1, H2, heq, hmap⟩
          cases H1 with
          | nil => simp at hmap
          | cons y H1 =>
            simp only [List.cons_append] at heq
            cases heq
            simp only [List.map_cons, List.cons.injEq] at hmap
            exact ⟨H1, H2, rfl, hmap.2⟩
      · have hm2 : ciMatch c x = false := by simpa using hm
        rw [step, if_neg (by simp [hm2]), mfs_seq_emp]
        constructor
        · intro h
          exact absurd h (by simp)
        · rintro ⟨H1, H2, heq, hmap⟩
          cases H1 with
          | nil => simp at hmap
          | cons y H1 =>
            simp only [List.cons_append] at heq
            cases heq
            simp only [List.map_cons, List.cons.injEq] at hmap
            exact absurd (ciMatch_iff.mpr hmap.1.symm) hm

theorem searchRE_iff : ∀ (H : List Char) (r : RE),
    searchRE r H = true ↔ ∃ H0 H1, H = H0 ++ H1 ∧ matchesFromStart r H1 = true := by
  intro H
  induction H with
  | nil =>
    intro r
    constructor
    · intro h
      exact ⟨[], [], rfl, h⟩
    · rintro ⟨H0, H1, heq, hm⟩
      obtain ⟨h1, h2⟩ := List.append_eq_nil.mp heq.symm
      subst h1; subst h2
      exact hm
  | cons c cs ih =>
    intro r
    simp only [searchRE, Bool.or_eq_true]
    constructor
    · rintro (h | h)
      · exact ⟨[], c :: cs, rfl, h⟩
      · obtain ⟨H0, H1, heq, hm⟩ := (ih r).mp h
        exact ⟨c :: H0, H1, by rw [heq]; rfl, hm⟩
    · rintro ⟨H0, H1, heq, hm⟩
      cases H0 with
      | nil =>
        left
        have h1 : H1 = c :: cs := by simpa using heq.symm
        exact h1 ▸ hm
      | cons y H0 =>
        right
        simp only [List.cons_append, List.cons.injEq] at heq
        exact (ih r).mpr ⟨H0, H1, heq.2, hm⟩

theorem leadsList_iff : ∀ (n H : List Char), leadsList n H = true ↔ ∃ H2, H = n ++ H2 := by
  intro n
  induction n with
  | nil =>
    intro H
    constructor
    · intro _
      exact ⟨H, rfl⟩
    · intro _
      rfl
  | cons c n ih =>
    intro H
    cases H with
    | nil =>
      simp only [leadsList]
      constructor
      · intro h
        exact absurd h (by simp)
      · rintro ⟨H2, heq⟩
        simp at heq
    | cons x H =>
      simp only [leadsList, Bool.and_eq_true, beq_iff_eq]
      constructor
      · rintro ⟨rfl, h⟩
        obtain ⟨H2, rfl⟩ := (ih H).mp h
        exact ⟨H2, rfl⟩
      · rintro ⟨H2, heq⟩
        simp only [List.cons_append, List.cons.injEq] at heq
        exact ⟨heq.1.symm, (ih H).mpr ⟨H2, heq.2⟩⟩

theorem substrOf_iff : ∀ (H n : List Char),
    substrOf n H = true ↔ ∃ H0 H2, H = H0 ++ n ++ H2 := by
  intro H
  induction H with
  | nil =>
    intro n
    simp only [substrOf]
    rw [leadsList_iff]
    constructor
    · rintro ⟨H2, heq⟩
      exact ⟨[], H2, by simpa using heq⟩
    · rintro ⟨H0, H2, heq⟩
      have h0 := List.append_eq_nil.mp heq.symm
      obtain ⟨h1, h2⟩ := h0
      obtain ⟨h3, h4⟩ := List.append_eq_nil.mp h1
      subst h3; subst h4; subst h2
      exact ⟨[], rfl⟩
  | cons c cs ih =>
    intro n
    simp only [substrOf, Bool.or_eq_true]
    rw [leadsList_iff, ih]
    constructor
    · rintro (⟨H2, heq⟩ | ⟨H0, H2, heq⟩)
      · exact ⟨[], H2, by simpa using heq⟩
      · exact ⟨c :: H0, H2, by rw [heq]; rfl⟩
    · rintro ⟨H0, H2, heq⟩
      cases H0 with
      | nil =>
        left
        exact ⟨H2, by simpa using heq⟩
      | cons y H0 =>
        right
        simp only [List.cons_append, List.cons.injEq] at heq
        exact ⟨H0, H2, heq.2⟩

theorem searchRE_litSeq_eq_substr (p G : List Char) :
    searchRE (litSeq p) G = substrOf (p.map pyLower) (G.map pyLower) := by
  rw [Bool.eq_iff_iff, searchRE_iff, substrOf_iff]
  constructor
  · rintro ⟨G0, G1, rfl, hm⟩
    obtain ⟨H1, H2, rfl, hmap⟩ := (mfs_litSeq p G1).mp hm
    refine ⟨G0.map pyLower, H2.map pyLower, ?_⟩
    simp [List.map_append, hmap]
  · rintro ⟨K0, K2, hK⟩
    rw [List.append_assoc] at hK
    obtain ⟨G0, G12, rfl, hK0, hK12⟩ := List.map_eq_append_iff.mp hK
    obtain ⟨G1, G2, rfl, hK1, hK2⟩ := List.map_eq_append_iff.mp hK12
    exact ⟨G0, G1 ++ G2, rfl, (mfs_litSeq p (G1 ++ G2)).mpr ⟨G1, G2, rfl, hK1⟩⟩

/-! Case-folding lemmas. -/

theorem pyLower_idem (c : Char) : pyLower (pyLower c) = pyLower c := by
  cases hf : lowerTable.find? (fun p => p.1 == c) with
  | none =>
    have h1 : pyLower c = c := by unfold pyLower; rw [hf]
    rw [h1]
    exact h1
  | some p =>
    have h1 : pyLower c = p.2 := by unfold pyLower; rw [hf]
    have hp : p ∈ lowerTable := List.mem_of_find?_eq_some hf
    have hall : lowerTable.all (fun q => pyLower q.2 == q.2) = true := by decide
    have h2 : pyLower p.2 = p.2 := by
      simpa using List.all_eq_true.mp hall p hp
    rw [h1, h2]

theorem map_pyLower_idem (l : List Char) :
    (l.map pyLower).map pyLower = l.map pyLower := by
  induction l with
  | nil => rfl
  | cons c cs ih => simp [pyLower_idem, ih]

theorem pyLowerS_append (a b : String) : pyLowerS (a ++ b) = pyLowerS a ++ pyLowerS b := by
  cases a with
  | mk da =>
    cases b with
    | mk db =>
      show String.mk (List.map pyLower (da ++ db)) =
        String.mk (List.map pyLower da ++ List.map pyLower db)
      rw [List.map_append]

theorem joinSp_map_lower : ∀ l : List String, joinSp (l.map pyLowerS) = pyLowerS (joinSp l) := by
  intro l
  induction l with
  | nil => rfl
  | cons s rest ih =>
    cases rest with
    | nil => rfl
    | cons t r2 =>
      show pyLowerS s ++ " " ++ joinSp ((t :: r2).map pyLowerS) =
        pyLowerS (s ++ " " ++ joinSp (t :: r2))
      rw [ih, pyLowerS_append, pyLowerS_append]
      rfl

theorem hayOf_lower (r : Rec) :
    hayOf r = pyLowerS (joinSp [r.numero.getD "", r.titre.getD "", r.«structure».getD "",
      r.priorite.getD "", r.canal_envoi.getD "", r.statut.getD "", r.notes.getD ""]) :=
  joinSp_map_lower [r.numero.getD "", r.titre.getD "", r.«structure».getD "",
    r.priorite.getD "", r.canal_envoi.getD "", r.statut.getD "", r.notes.getD ""]

theorem deadlinePass_none (dl : Option String) : deadlinePass none dl = true := rfl

/-- C2 (counterexample): with search text `"."` — a regular expression
matching any character — the predicate accepts a record titled `abc`
although `"."` is not a substring of the case-folded concatenation of
its fields, so "accepts iff case-folded substring" is false as stated. -/
theorem c2_counterexample :
    filterAcceptsRow ⟨".", none, none, none⟩ recAbc = true ∧
    searchSubstringSpec "." recAbc = false :=
  ⟨by decide, by decide⟩

/-- C2 (amended): with only the search filter active and a non-empty
search text, acceptance is decided by matching the text compiled as a
case-insensitive regular expression against the concatenated fields;
when the search text contains no regex metacharacters this coincides
with the claim: the record is accepted iff the case-folded search text
occurs as a substring of the case-folded concatenation (with
separators) of `numero, titre, structure, priorite, canal_envoi,
statut, notes`, absent fields contributing the empty string. -/
theorem c2_search_substring_literal (s : String) (r : Rec)
    (hne : s ≠ "") (hsafe : literalSafe s = true) :
    filterAcceptsRow ⟨s, none, none, none⟩ r = searchSubstringSpec s r := by
  unfold filterAcceptsRow
  dsimp only
  have hb : (s == "") = false := by simpa using hne
  simp only [hb, Bool.false_eq_true, if_false]
  rw [compileRE_safe s hsafe]
  dsimp only
  rw [searchRE_litSeq_eq_substr, deadlinePass_none]
  simp only [Bool.and_true]
  unfold searchSubstringSpec
  rw [hayOf_lower]
  have hdata : ∀ X : String, (pyLowerS X).data = X.data.map pyLower := fun _ => rfl
  rw [hdata, map_pyLower_idem]

/-- Witness for C2's amended theorem at the spec's scenario: searching
`recom` (metacharacter-free) matches a record whose `canal_envoi` is
`Recommandation` and whose other fields never mention it. -/
theorem c2_search_substring_literal_witness :
    ("recom" : String) ≠ "" ∧ literalSafe "recom" = true ∧
    filterAcceptsRow ⟨"recom", none, none, none⟩ recRecom = searchSubstringSpec "recom" recRecom ∧
    filterAcceptsRow ⟨"recom", none, none, none⟩ recRecom = true :=
  ⟨by decide, by decide,
   c2_search_substring_literal "recom" recRecom (by decide) (by decide),
   by decide⟩

/-- C1 (code-bug evaluation): importing a CSV row with `id = 7` into a
store that has no record with id 7 leaves the store unchanged — the
`UPDATE ... WHERE id=7` matches zero rows yet executes successfully, so
the fallback insert never runs and the row is silently dropped — while
inserting the same payload directly would have added a record, as the
code's import comment (`si 'id' existe et correspond, on met à jour; sinon on
insère`) and the claim promise. -/
theorem c1_import_missing_id_dropped :
    import_csv "now" [row7] [] = [] ∧
    insert_row "now" [] (payloadOf row7) ≠ [] :=
  ⟨rfl, by decide⟩

/-- C4 (counterexample): after a successful insert of a record that is
due within the window, the due-soon count is 1 but the alert label
still holds the quiet (empty) text — the reminder state is not
re-evaluated on insert, contradicting the claim that the transition is
evaluated on every successful insert, update and delete. -/
theorem c4_counterexample :
    (step true "now" asOfJan8 (.addRecord rawDue) initState).lbl_alerts = "" ∧
    count_deadline_within (step true "now" asOfJan8 (.addRecord rawDue) initState).store
      asOfJan8 3 true = 1 :=
  ⟨by decide, by decide⟩

/-- C4 (amended): the reminder indicator is re-evaluated on the
60-second timer tick, on the deferred startup check and on every change
of the reminder window — after each of those the label is empty exactly
when the due-soon count is zero and otherwise shows the count and the
window — while the insert, edit, delete, import and export handlers
leave the label untouched until the next evaluation. -/
theorem c4_reminder_evaluation (now : String) (asOf : CalDate) (s : AppState) :
    ((step true now asOf .timerTick s).lbl_alerts =
      (if 0 < count_deadline_within s.store asOf s.remind_days true then
        alertText (count_deadline_within s.store asOf s.remind_days true) s.remind_days
      else "")) ∧
    ((step true now asOf .startupCheck s).lbl_alerts =
      (if 0 < count_deadline_within s.store asOf s.remind_days true then
        alertText (count_deadline_within s.store asOf s.remind_days true) s.remind_days
      else "")) ∧
    (∀ n, (step true now asOf (.remindDaysChanged n) s).lbl_alerts =
      (if 0 < count_deadline_within s.store asOf n true then
        alertText (count_deadline_within s.store asOf n true) n
      else "")) ∧
    (∀ n days, alertText n days ≠ "") ∧
    (∀ raw, (step true now asOf (.addRecord raw) s).lbl_alerts = s.lbl_alerts) ∧
    (∀ i raw, (step true now asOf (.editRecord i raw) s).lbl_alerts = s.lbl_alerts) ∧
    (∀ i, (step true now asOf (.deleteRecord i) s).lbl_alerts = s.lbl_alerts) ∧
    (∀ rows, (step true now asOf (.importFile rows) s).lbl_alerts = s.lbl_alerts) ∧
    ((step true now asOf .exportFile s).lbl_alerts = s.lbl_alerts) := by
  refine ⟨rfl, rfl, fun n => rfl, ?_, ?_, ?_, ?_, fun rows => rfl, rfl⟩
  · intro n days h
    have h2 := congrArg String.data h
    simp [alertText] at h2
  · intro raw
    unfold step
    dsimp only
    cases get_data raw <;> rfl
  · intro i raw
    unfold step
    dsimp only
    cases get_data raw <;> rfl
  · intro i
    rfl

/-! Title-invariant lemmas. -/

theorem truthyS_some_ne {x : Option String} {t : String} (h : truthyS x = some t) : t ≠ "" := by
  cases x with
  | none => exact absurd h (by simp [truthyS])
  | some s =>
    unfold truthyS at h
    dsimp only at h
    split_ifs at h with hs
    cases h
    simpa using hs

theorem get_data_titre {raw : DialogInput} {p : Payload} (h : get_data raw = some p) :
    ∃ t, p.titre = some t ∧ t ≠ "" := by
  unfold get_data at h
  dsimp only at h
  split_ifs at h with hs
  cases h
  exact ⟨pyStrip raw.titre, rfl, by simpa using hs⟩

theorem insert_row_inv (now : String) (st : List Rec) (p : Payload)
    (h : ∀ r ∈ st, ∃ t, r.titre = some t ∧ t ≠ "")
    (hp : p.titre = none ∨ ∃ t, p.titre = some t ∧ t ≠ "") :
    ∀ r ∈ insert_row now st p, ∃ t, r.titre = some t ∧ t ≠ "" := by
  rcases hp with hp | ⟨t, hpt, hne⟩
  · unfold insert_row
    rw [hp]
    exact h
  · unfold insert_row
    rw [hpt]
    intro r hr
    rcases List.mem_append.mp hr with hr | hr
    · exact h r hr
    · simp only [List.mem_singleton] at hr
      subst hr
      exact ⟨t, by simp [hpt], hne⟩

theorem sqlUpdateWhere_inv {st : List Rec} {hit : Rec → Bool} {p : Payload} {st2 : List Rec}
    (h : ∀ r ∈ st, ∃ t, r.titre = some t ∧ t ≠ "")
    (hp : p.titre = none ∨ ∃ t, p.titre = some t ∧ t ≠ "")
    (hu : sqlUpdateWhere st hit p = some st2) :
    ∀ r ∈ st2, ∃ t, r.titre = some t ∧ t ≠ "" := by
  unfold sqlUpdateWhere at hu
  split_ifs at hu with hc
  cases hu
  intro r hr
  obtain ⟨x, hx, hfx⟩ := List.mem_map.mp hr
  by_cases hhit : hit x = true
  · rw [hhit] at hfx
    simp only [if_true] at hfx
    subst hfx
    rcases hp with hp | ⟨t, hpt, hne⟩
    · exfalso
      apply hc
      simp only [Bool.and_eq_true]
      exact ⟨by simp [hp], List.any_eq_true.mpr ⟨x, hx, hhit⟩⟩
    · exact ⟨t, by simpa [applyPayload] using hpt, hne⟩
  · have hf : hit x = false := by simpa using hhit
    rw [hf] at hfx
    simp only [Bool.false_eq_true, if_false] at hfx
    subst hfx
    exact h x hx

theorem payloadOf_titre (row : CSVRow) :
    (payloadOf row).titre = none ∨ ∃ t, (payloadOf row).titre = some t ∧ t ≠ "" := by
  cases hp : (payloadOf row).titre with
  | none => exact Or.inl rfl
  | some t => exact Or.inr ⟨t, rfl, truthyS_some_ne hp⟩

theorem importRow_inv (now : String) (st : List Rec) (row : CSVRow)
    (h : ∀ r ∈ st, ∃ t, r.titre = some t ∧ t ≠ "") :
    ∀ r ∈ importRow now st row, ∃ t, r.titre = some t ∧ t ≠ "" := by
  unfold importRow
  cases htr : truthyS row.id with
  | none =>
    dsimp only
    exact insert_row_inv now st _ h (payloadOf_titre row)
  | some rid =>
    dsimp only
    cases hu : sqlUpdateWhere st (fun r => ridMatch rid r.id) (payloadOf row) with
    | none => exact insert_row_inv now st _ h (payloadOf_titre row)
    | some st2 => exact sqlUpdateWhere_inv h (payloadOf_titre row) hu

theorem import_csv_inv (now : String) (rows : List CSVRow) :
    ∀ st : List Rec, (∀ r ∈ st, ∃ t, r.titre = some t ∧ t ≠ "") →
    ∀ r ∈ import_csv now rows st, ∃ t, r.titre = some t ∧ t ≠ "" := by
  induction rows with
  | nil => intro st h; exact h
  | cons row rest ih =>
    intro st h
    exact ih (importRow now st row) (importRow_inv now st row h)

theorem step_titre_inv (execOk : Bool) (now : String) (asOf : CalDate) (e : UIEvent)
    (s : AppState) (h : ∀ r ∈ s.store, ∃ t, r.titre = some t ∧ t ≠ "") :
    ∀ r ∈ (step execOk now asOf e s).store, ∃ t, r.titre = some t ∧ t ≠ "" := by
  cases e with
  | timerTick => exact h
  | startupCheck => exact h
  | exportFile => exact h
  | remindDaysChanged n => exact h
  | deleteRecord i =>
    intro r hr
    exact h r (List.mem_of_mem_filter hr)
  | importFile rows => exact import_csv_inv now rows s.store h
  | addRecord raw =>
    unfold step
    dsimp only
    cases hg : get_data raw with
    | none => exact h
    | some p =>
      dsimp only
      exact insert_row_inv now s.store p h (Or.inr (get_data_titre hg))
  | editRecord i raw =>
    unfold step
    dsimp only
    cases hg : get_data raw with
    | none => exact h
    | some p =>
      dsimp only
      unfold update_row
      cases hu : sqlUpdateWhere s.store (fun r => r.id == i) p with
      | none =>
        dsimp only
        exact h
      | some st2 =>
        dsimp only
        exact sqlUpdateWhere_inv h (Or.inr (get_data_titre hg)) hu

/-- C7 (amended): an insert whose bound `titre` is `NULL` — a dialog
title that is empty after trimming, or an imported empty `titre` cell —
fails without adding a record, and consequently in every state
reachable from the empty store through the application's own events,
every record's `titre` is present and non-empty as a string.  (The
CSV importer can still insert a whitespace-only title, so emptiness after
trimming is prevented only for dialog input.) -/
theorem c7_reachable_titre_nonempty (execOk : Bool) (now : String) (asOf : CalDate)
    (evs : List UIEvent) :
    ∀ r ∈ (runEvents execOk now asOf evs initState).store,
      ∃ t, r.titre = some t ∧ t ≠ "" := by
  have key : ∀ (l : List UIEvent) (s : AppState),
      (∀ r ∈ s.store, ∃ t, r.titre = some t ∧ t ≠ "") →
      ∀ r ∈ (runEvents execOk now asOf l s).store, ∃ t, r.titre = some t ∧ t ≠ "" := by
    intro l
    induction l with
    | nil => intro s h; exact h
    | cons e rest ih =>
      intro s h
      exact ih (step execOk now asOf e s) (step_titre_inv execOk now asOf e s h)
  exact key evs initState (by intro r hr; simp [initState] at hr)

/-- Witness for C7's amended theorem: the record created by the add
dialog from `rawDue` is reachable and its title is `Dev`, non-empty. -/
theorem c7_reachable_titre_nonempty_witness :
    ∃ t, (⟨1, none, some "Dev", none, some "2025-01-10", some "Moyenne", some "Email",
      some "À postuler", none, none, some "now"⟩ : Rec).titre = some t ∧ t ≠ "" :=
  c7_reachable_titre_nonempty true "now" asOfJan8 [.addRecord rawDue] _ (by decide)

/-- C7 (counterexample): importing a CSV row whose `titre` cell is a
single space inserts a record whose title is whitespace — it satisfies
the NOT NULL constraint but is empty after trimming — so a record whose
title trims to the empty string is reachable, contrary to the claim. -/
theorem c7_counterexample :
    runEvents true "now" asOfJan8 [.importFile [rowBlankTitre]] initState =
      ⟨[⟨1, none, some " ", none, none, none, none, none, none, none, some "now"⟩], 3, ""⟩ ∧
    pyStrip " " = "" :=
  ⟨by decide, by decide⟩

/-! Decimal rendering and parsing of record keys. -/

theorem digitsAux_ne_nil (fuel n : Nat) : digitsAux (fuel + 1) n ≠ [] := by
  unfold digitsAux
  split_ifs <;> simp

theorem natToStr_ne_empty (n : Nat) : natToStr n ≠ "" := by
  intro h
  have h2 := congrArg String.data h
  exact digitsAux_ne_nil n n h2

theorem digitChar_digit_facts (n : Nat) (h : n < 10) :
    isDigitCh (digitChar n) = true ∧ dval (digitChar n) = n := by
  interval_cases n <;> exact ⟨by decide, by decide⟩

theorem parseGo_append (xs ys : List Char) : ∀ acc : Nat,
    parseGo acc (xs ++ ys) =
      match parseGo acc xs with
      | none => none
      | some a => parseGo a ys := by
  induction xs with
  | nil => intro acc; rfl
  | cons c cs ih =>
    intro acc
    show (if isDigitCh c then parseGo (acc * 10 + dval c) (cs ++ ys) else none) =
      match (if isDigitCh c then parseGo (acc * 10 + dval c) cs else none) with
      | none => none
      | some a => parseGo a ys
    split_ifs with hd
    · exact ih (acc * 10 + dval c)
    · rfl

theorem parseGo_digitsAux : ∀ (f n acc : Nat), n < 10 ^ (f + 1) →
    ∃ k, 1 ≤ k ∧ parseGo acc (digitsAux (f + 1) n) = some (acc * 10 ^ k + n) := by
  intro f
  induction f with
  | zero =>
    intro n acc h
    have hn : n < 10 := by simpa using h
    refine ⟨1, le_refl 1, ?_⟩
    unfold digitsAux
    rw [if_pos hn]
    obtain ⟨hd1, hd2⟩ := digitChar_digit_facts n hn
    show (if isDigitCh (digitChar n) then parseGo (acc * 10 + dval (digitChar n)) [] else none) =
      some (acc * 10 ^ 1 + n)
    rw [if_pos hd1, hd2]
    show some (acc * 10 + n) = some (acc * 10 ^ 1 + n)
    norm_num
  | succ f ih =>
    intro n acc h
    by_cases hn : n < 10
    · refine ⟨1, le_refl 1, ?_⟩
      unfold digitsAux
      rw [if_pos hn]
      obtain ⟨hd1, hd2⟩ := digitChar_digit_facts n hn
      show (if isDigitCh (digitChar n) then parseGo (acc * 10 + dval (digitChar n)) [] else none) =
        some (acc * 10 ^ 1 + n)
      rw [if_pos hd1, hd2]
      show some (acc * 10 + n) = some (acc * 10 ^ 1 + n)
      norm_num
    · have hdiv : n / 10 < 10 ^ (f + 1) := by
        rw [Nat.div_lt_iff_lt_mul (by omega)]
        calc n < 10 ^ (f + 1 + 1) := h
        _ = 10 ^ (f + 1) * 10 := by ring
      obtain ⟨k, hk1, hk2⟩ := ih (n / 10) acc hdiv
      refine ⟨k + 1, by omega, ?_⟩
      unfold digitsAux
      rw [if_neg hn]
      rw [parseGo_append, hk2]
      obtain ⟨hd1, hd2⟩ := digitChar_digit_facts (n % 10) (by omega)
      show (if isDigitCh (digitChar (n % 10)) then
          parseGo ((acc * 10 ^ k + n / 10) * 10 + dval (digitChar (n % 10))) [] else none) =
        some (acc * 10 ^ (k + 1) + n)
      rw [if_pos hd1, hd2]
      show some ((acc * 10 ^ k + n / 10) * 10 + n % 10) = some (acc * 10 ^ (k + 1) + n)
      congr 1
      have hmod := Nat.div_add_mod n 10
      calc (acc * 10 ^ k + n / 10) * 10 + n % 10
          = acc * (10 ^ k * 10) + (10 * (n / 10) + n % 10) := by ring
        _ = acc * 10 ^ (k + 1) + n := by rw [hmod]; ring

theorem parseNatS_natToStr (n : Nat) : parseNatS (natToStr n) = some n := by
  have hlt : n < 10 ^ (n + 1) :=
    lt_of_lt_of_le (Nat.lt_pow_self (by omega) n) (Nat.pow_le_pow_right (by omega) (by omega))
  obtain ⟨k, _, hk⟩ := parseGo_digitsAux n n 0 hlt
  unfold parseNatS natToStr
  cases hd : digitsAux (n + 1) n with
  | nil => exact absurd hd (digitsAux_ne_nil n n)
  | cons c cs =>
    show parseGo 0 (c :: cs) = some n
    rw [← hd, hk]
    simp

theorem ridMatch_natToStr (i j : Nat) : ridMatch (natToStr i) j = (i == j) := by
  unfold ridMatch
  rw [parseNatS_natToStr]

/-! Round-trip lemmas for CSV export then import. -/

theorem truthyS_getD {v : Option String} (h : v ≠ some "") :
    truthyS (some (v.getD "")) = v := by
  cases v with
  | none => rfl
  | some s =>
    have hs : s ≠ "" := fun he => h (by rw [he])
    simp [truthyS, Option.getD, hs]

theorem goodRecB_iff (r : Rec) :
    goodRecB r = true ↔
      r.titre ≠ none ∧ r.titre ≠ some "" ∧ r.numero ≠ some "" ∧ r.«structure» ≠ some "" ∧
      r.date_limite ≠ some "" ∧ r.priorite ≠ some "" ∧ r.canal_envoi ≠ some "" ∧
      r.statut ≠ some "" ∧ r.date_envoi ≠ some "" ∧ r.notes ≠ some "" := by
  unfold goodRecB
  simp only [Bool.and_eq_true, bne_iff_ne, ne_eq]
  tauto

theorem payloadOf_exportRow (r : Rec) (h : goodRecB r = true) :
    payloadOf (exportRow r) =
      ⟨r.numero, r.titre, r.«structure», r.date_limite, r.priorite,
       r.canal_envoi, r.statut, r.date_envoi, r.notes⟩ := by
  obtain ⟨ht1, ht2, h1, h2, h3, h4, h5, h6, h7, h8⟩ := (goodRecB_iff r).mp h
  unfold payloadOf exportRow
  dsimp only
  rw [truthyS_getD h1, truthyS_getD ht2, truthyS_getD h2, truthyS_getD h3,
      truthyS_getD h4, truthyS_getD h5, truthyS_getD h6, truthyS_getD h7,
      truthyS_getD h8]

theorem applyPayload_fields (r : Rec) :
    applyPayload r ⟨r.numero, r.titre, r.«structure», r.date_limite, r.priorite,
      r.canal_envoi, r.statut, r.date_envoi, r.notes⟩ = r := rfl

theorem map_id_of_mem {α : Type} (l : List α) (f : α → α) (h : ∀ x ∈ l, f x = x) :
    l.map f = l := by
  induction l with
  | nil => rfl
  | cons x xs ih =>
    simp only [List.map_cons]
    rw [h x (List.mem_cons_self _ _), ih (fun y hy => h y (List.mem_cons_of_mem _ hy))]

theorem importRow_exportRow (now : String) (st : List Rec) (r : Rec) (hmem : r ∈ st)
    (hnodup : (st.map Rec.id).Nodup) (hgood : ∀ x ∈ st, goodRecB x = true) :
    importRow now st (exportRow r) = st := by
  have hne : natToStr r.id ≠ "" := natToStr_ne_empty r.id
  have hb : (natToStr r.id == "") = false := by simpa using hne
  have hpay := payloadOf_exportRow r (hgood r hmem)
  have htitre : (payloadOf (exportRow r)).titre = r.titre := by rw [hpay]
  have htn : r.titre ≠ none := ((goodRecB_iff r).mp (hgood r hmem)).1
  unfold importRow
  show (match truthyS (some (natToStr r.id)) with
    | some rid =>
      match sqlUpdateWhere st (fun x => ridMatch rid x.id) (payloadOf (exportRow r)) with
      | some st2 => st2
      | none => insert_row now st (payloadOf (exportRow r))
    | none => insert_row now st (payloadOf (exportRow r))) = st
  have htr : truthyS (some (natToStr r.id)) = some (natToStr r.id) := by
    simp [truthyS, hb]
  rw [htr]
  dsimp only
  have hupd : sqlUpdateWhere st (fun x => ridMatch (natToStr r.id) x.id)
      (payloadOf (exportRow r)) = some st := by
    unfold sqlUpdateWhere
    have hcond : ((payloadOf (exportRow r)).titre == none && st.any
        (fun x => ridMatch (natToStr r.id) x.id)) = false := by
      rw [htitre]
      cases hv : r.titre with
      | none => exact absurd hv htn
      | some t => simp
    rw [hcond]
    simp only [Bool.false_eq_true, if_false]
    congr 1
    apply map_id_of_mem
    intro x hx
    simp only [ridMatch_natToStr]
    by_cases hid : r.id = x.id
    · have hxr : x = r := List.inj_on_of_nodup_map hnodup hx hmem hid.symm
      subst hxr
      rw [hpay]
      simp only [beq_self_eq_true, if_true]
      exact applyPayload_fields x
    · have hbeq : (r.id == x.id) = false := by simpa using hid
      rw [hbeq]
      simp
  rw [hupd]

theorem import_export_rows (now : String) (st : List Rec)
    (hnodup : (st.map Rec.id).Nodup) (hgood : ∀ x ∈ st, goodRecB x = true) :
    ∀ rows : List CSVRow, (∀ row ∈ rows, ∃ r ∈ st, row = exportRow r) →
      import_csv now rows st = st := by
  intro rows
  induction rows with
  | nil => intro _; rfl
  | cons row rest ih =>
    intro h
    obtain ⟨r, hr, hrow⟩ := h row (List.mem_cons_self _ _)
    show import_csv now rest (importRow now st row) = st
    rw [hrow, importRow_exportRow now st r hr hnodup hgood]
    exact ih (fun q hq => h q (List.mem_cons_of_mem _ hq))

/-- C5 (amended): for a store with pairwise-distinct ids whose records
are well-formed — `titre` present and non-empty, optional text columns
never the empty string — exporting all records to CSV and importing the
unmodified file yields a store identical in all fields, `created_at`
included.  (A record holding an empty-string optional field comes back
with that field `NULL` instead, so the hypothesis is needed.) -/
theorem c5_round_trip_identity (now : String) (st : List Rec)
    (hnodup : (st.map Rec.id).Nodup) (hgood : ∀ x ∈ st, goodRecB x = true) :
    roundTrip now st = st := by
  unfold roundTrip export_csv
  apply import_export_rows now st hnodup hgood
  intro row hrow
  obtain ⟨r, hr, hrw⟩ := List.mem_map.mp hrow
  exact ⟨r, hr, hrw.symm⟩

/-- Witness for C5's amended theorem at a concrete well-formed store. -/
theorem c5_round_trip_identity_witness : roundTrip "now" stGood = stGood :=
  c5_round_trip_identity "now" stGood (by decide) (by decide)

/-- C5 (counterexample): a store whose `numero` is the empty string —
distinguishable from `NULL` — does not survive the round trip: the
export writes the empty cell, and the import maps the empty cell back
to `NULL`, changing the field. -/
theorem c5_counterexample : roundTrip "now" stEmptyNumero ≠ stEmptyNumero := by decide

/-- Witness for C4's amended theorem: the timer-tick equation at the
initial state. -/
theorem c4_reminder_evaluation_witness :
    (step true "now" asOfJan8 .timerTick initState).lbl_alerts =
      (if 0 < count_deadline_within initState.store asOfJan8 initState.remind_days true then
        alertText (count_deadline_within initState.store asOfJan8 initState.remind_days true)
          initState.remind_days
      else "") :=
  (c4_reminder_evaluation "now" asOfJan8 initState).1

/-- Witness for C9 at a concrete store, window and state. -/
theorem c9_count_failure_quiet_witness :
    count_deadline_within [recDue] asOfJan8 3 false = 0 ∧
    (update_reminders false asOfJan8 initState).lbl_alerts = "" :=
  c9_count_failure_quiet [recDue] asOfJan8 3 initState
